import Mathlib

/-!
Verification of the json-rpc-peer message dispatch and request-correlation
engine (`src/index.ts`, class `Peer`).

The embedding is deterministic state passing: the mutable `_deferreds` table
and the module-level `nextRequestId` counter form a `PeerState`; observable
actions (invoking the user handler, resolving or rejecting a pending promise,
pushing outgoing data, emitting an `error` event) are recorded as an ordered
list of `Effect`s.  A dispatched call returns the new state, its effects and
an `Except` value: `Except.error` models the returned promise rejecting,
`Except.ok` models it fulfilling (with `none` standing for `undefined`).
-/

namespace JsonRpcPeer

/-- A JSON value (the payload `params`, `result` and error `data` slots). -/
inductive Value where
  | null
  | bool (b : Bool)
  | num (n : Int)
  | str (s : String)
  | arr (elems : List Value)

/-- The `{message, code, data}` triple carried by a JSON-RPC error object. -/
structure ErrObj where
  message : String
  code : Int
  data : Option Value

/-- A decoded JSON-RPC payload, as classified by the codec `parse`:
request, notification, response or error.  An error's `id` is `none` when it
is `null` or absent. -/
inductive Payload where
  | request (id : Int) (method : String) (params : Option Value)
  | notification (method : String) (params : Option Value)
  | response (id : Int) (result : Value)
  | error (id : Option Int) (error : ErrObj)

/-- A decoded message: a single payload or a batch (array) of messages. -/
inductive Message where
  | single (p : Payload)
  | batch (elems : List Message)

/-- A raw incoming message, abstracted by what the codec does with it:
`wf m` parses to `m`, `malformed e` makes `parse` throw the error `e`. -/
inductive Raw where
  | wf (m : Message)
  | malformed (e : ErrObj)

/-- An encoded outgoing payload, produced by `format.response` or
`format.error`. -/
inductive Encoded where
  | response (id : Int) (result : Value)
  | error (id : Option Int) (error : ErrObj)

/-- A non-`undefined` value returned by `exec`: one encoded payload, or the
array built for a batch. -/
inductive ExecOut where
  | payload (e : Encoded)
  | batch (outs : List ExecOut)

/-- A reason the promise returned by `exec` rejects: the encoded error
payload thrown by `parseMessage`, or the `TypeError` raised by calling a
method of `undefined` when `_getDeferred` finds no entry. -/
inductive Fault where
  | errorPayload (id : Option Int) (e : ErrObj)
  | typeError

/-- An error raised by the user handler.  `methodNotFound d` models an
`instanceof MethodNotFound` value carrying `data` `d`; `other` models any
other `JsonRpcError`. -/
inductive HandlerError where
  | methodNotFound (data : Option Value)
  | other (e : ErrObj)

/-- The settled outcome of the (makeAsync-wrapped) handler: fulfilled with a
value (`none` for `undefined`), or rejected.  A synchronous throw and an
asynchronous rejection both settle as `failure`. -/
inductive HandlerResult where
  | success (v : Option Value)
  | failure (e : HandlerError)

/-- The user handler `onMessage(payload, data)`, already wrapped by
`makeAsync` so its outcome is a settled `HandlerResult`. -/
abbrev Handler := Payload → Option Value → HandlerResult

/-- What a pending promise is rejected with: the `JsonRpcError` rebuilt from
an incoming error payload, or the `reason` passed to `failPendingRequests`. -/
inductive RejectReason where
  | rpcError (e : ErrObj)
  | reason (r : Option String)

/-- Data emitted outward through `push`. -/
inductive OutData where
  | request (id : Int) (method : String) (params : Option Value)
  | notification (method : String) (params : Option Value)
  | out (o : ExecOut)

/-- One observable action of the peer, in program order. -/
inductive Effect where
  | invokeHandler (p : Payload)
  | resolve (tok : Nat) (v : Value)
  | reject (tok : Nat) (r : RejectReason)
  | push (d : OutData)
  | emitError (f : Fault)

/-- The peer's mutable state: the `_deferreds` table (each pending entry's
`resolve`/`reject` pair abstracted by a caller token) and the module-level
`nextRequestId` counter. -/
structure PeerState where
  deferreds : List (Int × Nat)
  nextRequestId : Int

/-- The outcome of one dispatched call: next state, emitted effects, and the
settled value of the returned promise. -/
structure ExecResult (α : Type) where
  state : PeerState
  effects : List Effect
  result : Except Fault α

/-- Reading `this._deferreds[id]`: the first entry keyed `id`, if any. -/
def lookupDeferred (tbl : List (Int × Nat)) (id : Int) : Option Nat :=
  (tbl.find? (fun e => e.1 == id)).map (fun e => e.2)

/-- `delete this._deferreds[id]`. -/
def eraseDeferred (tbl : List (Int × Nat)) (id : Int) : List (Int × Nat) :=
  tbl.filter (fun e => e.1 != id)

/-- `this._deferreds[id] = deferred` (assignment overwrites any old entry). -/
def insertDeferred (tbl : List (Int × Nat)) (id : Int) (tok : Nat) :
    List (Int × Nat) :=
  (id, tok) :: eraseDeferred tbl id

/-- Mirrors `Peer._getDeferred`: read the entry for `id` and delete it from
the table in the same step, before the caller can use it. -/
def getDeferred (st : PeerState) (id : Int) : Option Nat × PeerState :=
  (lookupDeferred st.deferreds id,
   { st with deferreds := eraseDeferred st.deferreds id })

/-- JavaScript falsiness of an optional error `data` value (the `!error.data`
test). -/
def isFalsy : Option Value → Bool
  | none => true
  | some .null => true
  | some (.bool b) => !b
  | some (.num n) => n == 0
  | some (.str s) => s == ""
  | some (.arr _) => false

/-- Mirrors the ternary in `exec`'s request branch:
`(error instanceof MethodNotFound && !error.data) ?
  new MethodNotFound(requestPayload.method) : error`. -/
def rewriteMNF (method : String) (e : HandlerError) : HandlerError :=
  match e with
  | .methodNotFound d =>
    if isFalsy d then .methodNotFound (some (.str method))
    else .methodNotFound d
  | .other e => .other e

/-- Mirrors `format.error(id, error)` on a handler error: a `MethodNotFound`
carries code `-32601` and its `data`; any other `JsonRpcError` carries its
own fields. -/
def errObjOf : HandlerError → ErrObj
  | .methodNotFound d => ⟨"method not found", -32601, d⟩
  | .other e => e

/-- Mirrors `defaultOnMessage` of `src/index.ts`: throws
`new MethodNotFound(message.method)` for a request, does nothing (returns
`undefined`) otherwise. -/
def defaultOnMessage : Handler := fun p _ =>
  match p with
  | .request _ method _ => .failure (.methodNotFound (some (.str method)))
  | _ => .success none

/-- Mirrors `makeAsync`: the handler is lifted so that a synchronous return
or throw becomes a settled promise; in this embedding handler outcomes are
already settled `HandlerResult`s, so the lifting is the identity. -/
def makeAsync (h : Handler) : Handler := h

/-- Mirrors `parseMessage`: a parse failure is rethrown as
`format.error(null, error)`, an id-less encoded error payload. -/
def parseMessage : Raw → Except Fault Message
  | .wf m => .ok m
  | .malformed e => .error (.errorPayload none e)

/-- Dispatch of one non-batch payload: the body of `Peer.exec` after the
array test (`src/index.ts` lines 103-148). -/
def execSingle (h : Handler) (d : Option Value) (p : Payload) (st : PeerState) :
    ExecResult (Option ExecOut) :=
  match p with
  | .error oid e =>
    match oid with
    | none => ⟨st, [], .ok none⟩
    | some i =>
      match getDeferred st i with
      | (none, st') => ⟨st', [], .error .typeError⟩
      | (some tok, st') =>
        ⟨st', [.reject tok (.rpcError ⟨e.message, e.code, e.data⟩)], .ok none⟩
  | .response i result =>
    match getDeferred st i with
    | (none, st') => ⟨st', [], .error .typeError⟩
    | (some tok, st') => ⟨st', [.resolve tok result], .ok none⟩
  | .notification _ _ => ⟨st, [.invokeHandler p], .ok none⟩
  | .request i method _ =>
    match h p d with
    | .success r =>
      ⟨st, [.invokeHandler p],
        .ok (some (.payload (.response i (r.getD .null))))⟩
    | .failure e =>
      ⟨st, [.invokeHandler p],
        .ok (some (.payload (.error (some i) (errObjOf (rewriteMNF method e)))))⟩

mutual

/-- Dispatch of a decoded message: `Peer.exec` after `parseMessage`.  A batch
dispatches each element and keeps only the non-`undefined` results, in input
order (`Promise.all` preserves index order); if any element's promise
rejects, `Promise.all` rejects the whole call with the first such fault. -/
def execMsg (h : Handler) (d : Option Value) (m : Message) (st : PeerState) :
    ExecResult (Option ExecOut) :=
  match m with
  | .single p => execSingle h d p st
  | .batch ms =>
    let r := execBatch h d ms st
    match r.result with
    | .error f => ⟨r.state, r.effects, .error f⟩
    | .ok outs => ⟨r.state, r.effects, .ok (some (.batch (outs.filterMap id)))⟩

/-- Dispatch of a batch's elements in order, threading the state and joining
the per-element promise outcomes as `Promise.all` does. -/
def execBatch (h : Handler) (d : Option Value) (ms : List Message)
    (st : PeerState) : ExecResult (List (Option ExecOut)) :=
  match ms with
  | [] => ⟨st, [], .ok []⟩
  | m :: rest =>
    let r1 := execMsg h d m st
    let r2 := execBatch h d rest r1.state
    ⟨r2.state, r1.effects ++ r2.effects,
      match r1.result, r2.result with
      | .error f, _ => .error f
      | .ok _, .error f => .error f
      | .ok o, .ok os => .ok (o :: os)⟩

end

/-- `Peer.exec`: parse, then dispatch.  A `parseMessage` throw inside the
`async` body settles the returned promise as rejected. -/
def exec (h : Handler) (st : PeerState) (raw : Raw) (d : Option Value) :
    ExecResult (Option ExecOut) :=
  match parseMessage raw with
  | .error f => ⟨st, [], .error f⟩
  | .ok m => execMsg h d m st

/-- The outcome of `Peer.write`: next state, effects, and the boolean the
call returns synchronously. -/
structure WriteResult where
  state : PeerState
  effects : List Effect
  ret : Bool

/-- Mirrors `Peer.write` (`src/index.ts` lines 234-252): dispatch the
message, push a non-`undefined` result outward, route a rejection to the
asynchronous `error` event, and return `true` in every case. -/
def write (h : Handler) (st : PeerState) (raw : Raw) : WriteResult :=
  let r := exec h st raw none
  match r.result with
  | .ok none => ⟨r.state, r.effects, true⟩
  | .ok (some o) => ⟨r.state, r.effects ++ [.push (.out o)], true⟩
  | .error f => ⟨r.state, r.effects ++ [.emitError f], true⟩

/-- The outcome of `Peer.request`: next state, effects, and the generated
request id. -/
structure RequestResult where
  state : PeerState
  effects : List Effect
  requestId : Int

/-- Mirrors `Peer.request` (`src/index.ts` lines 167-175): take the counter's
value and increment it, register the new promise's `resolve`/`reject` pair
(abstracted by `tok`) under the id, then push the encoded request outward. -/
def request (st : PeerState) (method : String) (params : Option Value)
    (tok : Nat) : RequestResult :=
  let requestId := st.nextRequestId
  ⟨⟨insertDeferred st.deferreds requestId tok, requestId + 1⟩,
   [.push (.request requestId method params)], requestId⟩

/-- Mirrors `Peer.notify`: push an encoded notification, no bookkeeping. -/
def notify (method : String) (params : Option Value) : List Effect :=
  [.push (.notification method params)]

/-- Mirrors `Peer.failPendingRequests`: reject every pending entry with
`reason` and delete it. -/
def failPendingRequests (st : PeerState) (reason : Option String) :
    PeerState × List Effect :=
  ({ st with deferreds := [] },
   st.deferreds.map (fun en => .reject en.2 (.reason reason)))

/-- All keys in the deferred table lie strictly below the id counter; this is
how `nextRequestId` guarantees fresh ids. -/
def keysBelow (st : PeerState) : Bool :=
  st.deferreds.all (fun e => decide (e.1 < st.nextRequestId))

/-- The output of one element of a batch, as a function of the element alone:
a request yields one encoded response or error, every other independent
element yields `undefined`. -/
def singleOut (h : Handler) (d : Option Value) (p : Payload) : Option ExecOut :=
  match p with
  | .request i method _ =>
    match h p d with
    | .success r => some (.payload (.response i (r.getD .null)))
    | .failure e =>
      some (.payload (.error (some i) (errObjOf (rewriteMNF method e))))
  | _ => none

/-- Payloads whose dispatch never touches the deferred table and never
faults: requests, notifications and id-less errors. -/
def isIndependent : Payload → Bool
  | .request _ _ _ => true
  | .notification _ _ => true
  | .error none _ => true
  | _ => false

-- ===================================================================
-- Table lemmas

theorem lookupDeferred_erase_self (tbl : List (Int × Nat)) (tgt : Int) :
    lookupDeferred (eraseDeferred tbl tgt) tgt = none := by
  induction tbl with
  | nil => rfl
  | cons a t ih =>
    by_cases hc : a.1 = tgt
    · simp only [eraseDeferred, List.filter_cons, hc, bne_self_eq_false,
        Bool.false_eq_true, if_false]
      exact ih
    · simp only [eraseDeferred, lookupDeferred, List.filter_cons,
        List.find?_cons] at ih ⊢
      have h1 : (a.1 != tgt) = true := by simp [hc]
      have h2 : (a.1 == tgt) = false := by simp [hc]
      rw [h1]
      simp only [if_true, List.find?_cons, h2]
      exact ih

theorem find?_erase_ne (t : List (Int × Nat)) (i j : Int) (hij : i ≠ j) :
    (t.filter (fun e => e.1 != j)).find? (fun e => e.1 == i)
      = t.find? (fun e => e.1 == i) := by
  induction t with
  | nil => rfl
  | cons a t ih =>
    rw [List.filter_cons]
    by_cases hc : a.1 = j
    · have h1 : (a.1 != j) = false := by simp [hc]
      have h2 : (a.1 == i) = false := by
        simp only [hc, beq_eq_false_iff_ne]
        exact Ne.symm hij
      rw [h1, List.find?_cons, h2]
      simpa using ih
    · have h1 : (a.1 != j) = true := by simp [hc]
      rw [h1]
      simp only [if_true]
      rw [List.find?_cons, List.find?_cons]
      cases h2 : (a.1 == i) with
      | true => rfl
      | false => exact ih

theorem lookupDeferred_erase_ne (tbl : List (Int × Nat)) (i j : Int)
    (hij : i ≠ j) :
    lookupDeferred (eraseDeferred tbl j) i = lookupDeferred tbl i := by
  unfold lookupDeferred eraseDeferred
  rw [find?_erase_ne tbl i j hij]

theorem lookupDeferred_insert_self (tbl : List (Int × Nat)) (i : Int)
    (tok : Nat) : lookupDeferred (insertDeferred tbl i tok) i = some tok := by
  simp [insertDeferred, lookupDeferred, List.find?_cons]

theorem lookupDeferred_all_lt (tbl : List (Int × Nat)) (n : Int)
    (hb : tbl.all (fun e => decide (e.1 < n)) = true) :
    lookupDeferred tbl n = none := by
  induction tbl with
  | nil => rfl
  | cons a t ih =>
    simp only [List.all_cons, Bool.and_eq_true, decide_eq_true_eq] at hb
    have hne : ¬a.1 = n := ne_of_lt hb.1
    simpa [lookupDeferred, List.find?_cons, hne] using ih hb.2

-- ===================================================================
-- Dispatch lemmas

theorem execSingle_independent (h : Handler) (d : Option Value) (p : Payload)
    (st : PeerState) (hp : isIndependent p = true) :
    (execSingle h d p st).state = st ∧
    (execSingle h d p st).result = .ok (singleOut h d p) := by
  cases p with
  | request i method params =>
    cases hr : h (.request i method params) d <;>
      simp [execSingle, singleOut, hr]
  | notification method params => exact ⟨rfl, rfl⟩
  | response i r => simp [isIndependent] at hp
  | error oid e =>
    cases oid with
    | none => exact ⟨rfl, rfl⟩
    | some i => simp [isIndependent] at hp

theorem execMsg_single (h : Handler) (d : Option Value) (p : Payload)
    (st : PeerState) : execMsg h d (.single p) st = execSingle h d p st := rfl

theorem execBatch_cons (h : Handler) (d : Option Value) (m : Message)
    (rest : List Message) (st : PeerState) :
    execBatch h d (m :: rest) st
      = ⟨(execBatch h d rest (execMsg h d m st).state).state,
         (execMsg h d m st).effects
           ++ (execBatch h d rest (execMsg h d m st).state).effects,
         match (execMsg h d m st).result,
               (execBatch h d rest (execMsg h d m st).state).result with
         | .error f, _ => .error f
         | .ok _, .error f => .error f
         | .ok o, .ok os => .ok (o :: os)⟩ := rfl

theorem execBatch_independent (h : Handler) (d : Option Value)
    (ps : List Payload) (st : PeerState)
    (hp : ∀ p ∈ ps, isIndependent p = true) :
    (execBatch h d (ps.map .single) st).state = st ∧
    (execBatch h d (ps.map .single) st).result
      = .ok (ps.map (singleOut h d)) := by
  induction ps generalizing st with
  | nil => exact ⟨rfl, rfl⟩
  | cons p rest ih =>
    have h1 := execSingle_independent h d p st (hp p (List.mem_cons_self p rest))
    have h2 := ih ((execSingle h d p st).state)
      (fun q hq => hp q (List.mem_cons_of_mem p hq))
    rw [h1.1] at h2
    simp only [List.map_cons, execBatch_cons, execMsg_single, h1.1, h1.2,
      h2.1, h2.2]
    exact ⟨trivial, trivial⟩

theorem execMsg_batch (h : Handler) (d : Option Value) (ms : List Message)
    (st : PeerState) :
    execMsg h d (.batch ms) st
      = match (execBatch h d ms st).result with
        | .error f =>
          ⟨(execBatch h d ms st).state, (execBatch h d ms st).effects, .error f⟩
        | .ok outs =>
          ⟨(execBatch h d ms st).state, (execBatch h d ms st).effects,
           .ok (some (.batch (outs.filterMap id)))⟩ := rfl

/-- The value `exec`'s promise fulfils with, `none` both for `undefined` and
when the promise rejects instead: the payloads actually produced. -/
def outputOf (r : ExecResult (Option ExecOut)) : Option ExecOut :=
  match r.result with
  | .ok o => o
  | .error _ => none

-- ===================================================================
-- Claims

/-- C1: for every batch payload (here: of requests, notifications and
id-less errors, the kinds the claim enumerates), `exec` dispatches each
element independently — the outcome is a function of the element alone and
the peer state is untouched — and returns exactly the non-`undefined`
per-element results, one encoded Response or Error per request element and
nothing for notifications and id-less errors, in the relative order of the
corresponding input elements; the result may be the empty sequence. -/
theorem batch_exec_collects_results (h : Handler) (d : Option Value)
    (ps : List Payload) (st : PeerState)
    (hp : ∀ p ∈ ps, isIndependent p = true) :
    (execMsg h d (.batch (ps.map .single)) st).state = st ∧
    (execMsg h d (.batch (ps.map .single)) st).result
      = .ok (some (.batch (ps.filterMap (singleOut h d)))) ∧
    (∀ i method params,
      (singleOut h d (.request i method params)).isSome = true) ∧
    (∀ method params, singleOut h d (.notification method params) = none) ∧
    (∀ e, singleOut h d (.error none e) = none) := by
  have hb := execBatch_independent h d ps st hp
  refine ⟨?_, ?_, ?_, fun _ _ => rfl, fun _ => rfl⟩
  · rw [execMsg_batch, hb.2]
    exact hb.1
  · rw [execMsg_batch, hb.2]
    show (Except.ok (some (ExecOut.batch ((ps.map (singleOut h d)).filterMap id)))
        : Except Fault (Option ExecOut))
      = Except.ok (some (ExecOut.batch (ps.filterMap (singleOut h d))))
    rw [List.filterMap_map]
    rfl
  · intro i method params
    cases hr : h (.request i method params) d <;> simp [singleOut, hr]

/-- C3: for every single payload dispatched by `exec`: a Request produces
exactly one encoded payload bearing the request's id — a Response on handler
success, with `null` substituted for an `undefined` handler result, or an
Error on handler failure — while a Notification, Response or Error payload
produces zero output payloads (`exec` yields `undefined`). -/
theorem single_dispatch_outputs (h : Handler) (d : Option Value)
    (st : PeerState) (i j : Int) (method : String) (params : Option Value)
    (rr : Value) (oid : Option Int) (e : ErrObj) :
    (execSingle h d (.request i method params) st).result
      = .ok (some (.payload
          (match h (.request i method params) d with
           | .success v => Encoded.response i (v.getD .null)
           | .failure er =>
             Encoded.error (some i) (errObjOf (rewriteMNF method er))))) ∧
    (execSingle h d (.notification method params) st).result = .ok none ∧
    outputOf (execSingle h d (.response j rr) st) = none ∧
    outputOf (execSingle h d (.error oid e) st) = none := by
  refine ⟨?_, rfl, ?_, ?_⟩
  · cases hr : h (.request i method params) d <;> simp [execSingle, hr]
  · cases hl : lookupDeferred st.deferreds j <;>
      simp [execSingle, getDeferred, outputOf, hl]
  · cases oid with
    | none => rfl
    | some k =>
      cases hl : lookupDeferred st.deferreds k <;>
        simp [execSingle, getDeferred, outputOf, hl]

/-- C8: for every Notification payload, `exec` invokes the handler exactly
once, returns `undefined` and never rejects; the equation holds for every
handler `h`, so both the handler's success value and any handler failure are
discarded and never surfaced. -/
theorem notification_swallows (h : Handler) (d : Option Value)
    (method : String) (params : Option Value) (st : PeerState) :
    execSingle h d (.notification method params) st
      = ⟨st, [.invokeHandler (.notification method params)], .ok none⟩ := rfl

/-- C9: for every Error payload whose id is null or absent, `exec` returns
`undefined` without rejecting any pending entry and without modifying the
pending-request table. -/
theorem error_without_id_discarded (h : Handler) (d : Option Value)
    (e : ErrObj) (st : PeerState) :
    execSingle h d (.error none e) st = ⟨st, [], .ok none⟩ := rfl

/-- C7: `failPendingRequests reason` rejects every currently pending entry
with `reason` and leaves the table empty; a request sent afterwards
registers a fresh entry whose matching Response still resolves it
normally. -/
theorem failPendingRequests_clears_and_rejects (st : PeerState)
    (reason : Option String) (method : String) (params : Option Value)
    (tok : Nat) (h : Handler) (d : Option Value) (r : Value) :
    (failPendingRequests st reason).1.deferreds = [] ∧
    (failPendingRequests st reason).2
      = st.deferreds.map (fun en => .reject en.2 (.reason reason)) ∧
    (execSingle h d
        (.response
          (request (failPendingRequests st reason).1 method params tok).requestId
          r)
        (request (failPendingRequests st reason).1 method params tok).state).effects
      = [.resolve tok r] ∧
    (execSingle h d
        (.response
          (request (failPendingRequests st reason).1 method params tok).requestId
          r)
        (request (failPendingRequests st reason).1 method params tok).state).result
      = .ok none := by
  refine ⟨rfl, rfl, ?_, ?_⟩ <;>
    simp [failPendingRequests, request, execSingle, getDeferred,
      insertDeferred, eraseDeferred, lookupDeferred, List.find?_cons]

/-- C2: when `exec` processes a Response or Error payload whose id has a
pending entry, `_getDeferred` removes the entry from the table in the same
step that returns it, before its `resolve`/`reject` is invoked: afterwards
the table has no entry for the id, the entry is settled exactly once, and a
second dispatch of the same id settles nothing (so the same id cannot be
resolved or rejected twice, and an id is reusable only once its entry is
gone). -/
theorem getDeferred_removes_before_settling (h : Handler) (d : Option Value)
    (st : PeerState) (i : Int) (tok : Nat) (r : Value) (e : ErrObj)
    (hm : lookupDeferred st.deferreds i = some tok) :
    (execSingle h d (.response i r) st).effects = [.resolve tok r] ∧
    lookupDeferred (execSingle h d (.response i r) st).state.deferreds i
      = none ∧
    (execSingle h d (.response i r)
        (execSingle h d (.response i r) st).state).effects = [] ∧
    (execSingle h d (.error (some i) e) st).effects
      = [.reject tok (.rpcError ⟨e.message, e.code, e.data⟩)] ∧
    lookupDeferred (execSingle h d (.error (some i) e) st).state.deferreds i
      = none ∧
    (execSingle h d (.error (some i) e)
        (execSingle h d (.error (some i) e) st).state).effects = [] := by
  have hst : execSingle h d (.response i r) st
      = ⟨{ st with deferreds := eraseDeferred st.deferreds i },
         [.resolve tok r], .ok none⟩ := by
    simp [execSingle, getDeferred, hm]
  have hste : execSingle h d (.error (some i) e) st
      = ⟨{ st with deferreds := eraseDeferred st.deferreds i },
         [.reject tok (.rpcError ⟨e.message, e.code, e.data⟩)], .ok none⟩ := by
    simp [execSingle, getDeferred, hm]
  refine ⟨by rw [hst], ?_, ?_, by rw [hste], ?_, ?_⟩
  · rw [hst]
    exact lookupDeferred_erase_self _ _
  · rw [hst]
    simp [execSingle, getDeferred, lookupDeferred_erase_self]
  · rw [hste]
    exact lookupDeferred_erase_self _ _
  · rw [hste]
    simp [execSingle, getDeferred, lookupDeferred_erase_self]

/-- C4: `request` takes the current counter value as the id — fresh, since
every outstanding entry's key lies below the counter — registers the pending
entry keyed by that id, then emits exactly the encoded Request payload
outward; the counter increments, keeping the invariant, so concurrently
outstanding requests never share an id; the promise settles by resolving on
a Response with that id and by rejecting on an Error with that id, and a
dispatch bearing any other id leaves the entry pending. -/
theorem request_fresh_id_registers_and_settles (st : PeerState)
    (method : String) (params : Option Value) (tok : Nat) (h : Handler)
    (d : Option Value) (r : Value) (e : ErrObj) (j : Int)
    (hb : keysBelow st = true) (hj : j ≠ st.nextRequestId) :
    (request st method params tok).requestId = st.nextRequestId ∧
    lookupDeferred st.deferreds (request st method params tok).requestId
      = none ∧
    lookupDeferred (request st method params tok).state.deferreds
      (request st method params tok).requestId = some tok ∧
    (request st method params tok).effects
      = [.push (.request (request st method params tok).requestId method
          params)] ∧
    (request st method params tok).state.nextRequestId
      = st.nextRequestId + 1 ∧
    keysBelow (request st method params tok).state = true ∧
    (execSingle h d (.response (request st method params tok).requestId r)
        (request st method params tok).state).effects = [.resolve tok r] ∧
    (execSingle h d
        (.error (some (request st method params tok).requestId) e)
        (request st method params tok).state).effects
      = [.reject tok (.rpcError ⟨e.message, e.code, e.data⟩)] ∧
    lookupDeferred
      (execSingle h d (.response j r)
        (request st method params tok).state).state.deferreds
      (request st method params tok).requestId = some tok := by
  have hfresh : lookupDeferred st.deferreds st.nextRequestId = none :=
    lookupDeferred_all_lt st.deferreds st.nextRequestId hb
  have hlook := lookupDeferred_insert_self st.deferreds st.nextRequestId tok
  have hkb : keysBelow (request st method params tok).state = true := by
    simp only [keysBelow, request, insertDeferred, List.all_cons,
      Bool.and_eq_true, decide_eq_true_eq, List.all_eq_true] at hb ⊢
    refine ⟨by omega, ?_⟩
    intro en he
    have := hb en (List.mem_of_mem_filter he)
    omega
  refine ⟨rfl, hfresh, hlook, rfl, rfl, hkb, ?_, ?_, ?_⟩
  · simp [execSingle, getDeferred, request, hlook]
  · simp [execSingle, getDeferred, request, hlook]
  · have hej : lookupDeferred
        (eraseDeferred (request st method params tok).state.deferreds j)
        st.nextRequestId = some tok := by
      rw [lookupDeferred_erase_ne _ _ _ (Ne.symm hj)]
      exact hlook
    cases hl : lookupDeferred (request st method params tok).state.deferreds j
      with
    | none => simpa [execSingle, getDeferred, hl] using hej
    | some tok2 => simpa [execSingle, getDeferred, hl] using hej

/-- C5: a Request whose handler fails with a method-not-found error carrying
no data is answered with an encoded Error whose data is the request's method
name; in particular a request for method `"foo"` rejected by the default
handler yields an encoded Error whose data equals `"foo"`. -/
theorem mnf_error_data_is_method (h : Handler) (d : Option Value)
    (st st2 : PeerState) (i i2 : Int) (method : String)
    (params params2 : Option Value)
    (hf : h (.request i method params) d = .failure (.methodNotFound none)) :
    (execSingle h d (.request i method params) st).result
      = .ok (some (.payload (.error (some i)
          ⟨"method not found", -32601, some (.str method)⟩))) ∧
    (execSingle defaultOnMessage d (.request i2 "foo" params2) st2).result
      = .ok (some (.payload (.error (some i2)
          ⟨"method not found", -32601, some (.str "foo")⟩))) := by
  constructor
  · simp [execSingle, hf, rewriteMNF, isFalsy, errObjOf]
  · rfl

/-- C6: a raw message the codec cannot parse makes `exec` reject with the
id-less encoded Error payload built by `parseMessage` (not the bare parse
exception); `write` returns `true` for every input, never throwing
synchronously, and surfaces a dispatch failure as an asynchronous
out-of-band error-event effect. -/
theorem parse_failure_rejects_write_never_throws (h : Handler)
    (st : PeerState) (e : ErrObj) (d : Option Value) (raw raw2 : Raw)
    (f : Fault) (hf : (exec h st raw none).result = .error f) :
    exec h st (.malformed e) d = ⟨st, [], .error (.errorPayload none e)⟩ ∧
    (write h st raw2).ret = true ∧
    Effect.emitError f ∈ (write h st raw).effects := by
  refine ⟨rfl, ?_, ?_⟩
  · cases hr : (exec h st raw2 none).result with
    | ok o =>
      cases o with
      | none => simp [write, hr]
      | some oo => simp [write, hr]
    | error f2 => simp [write, hr]
  · simp [write, hf]

/-- C10: a Response or Error payload whose non-null id has no pending entry
makes `exec`'s promise reject (the deleted lookup yields nothing and
invoking its `resolve`/`reject` faults with a type error); when such a
payload arrives through `write`, the rejection is emitted as an error-event
effect — not dropped and not thrown, since `write` still returns `true`. -/
theorem unmatched_id_faults_and_emits (h : Handler) (d : Option Value)
    (st : PeerState) (i : Int) (r : Value) (e : ErrObj)
    (hm : lookupDeferred st.deferreds i = none) :
    (execSingle h d (.response i r) st).result = .error .typeError ∧
    (execSingle h d (.error (some i) e) st).result = .error .typeError ∧
    (write h st (.wf (.single (.response i r)))).effects
      = [.emitError .typeError] ∧
    (write h st (.wf (.single (.response i r)))).ret = true ∧
    (write h st (.wf (.single (.error (some i) e)))).effects
      = [.emitError .typeError] ∧
    (write h st (.wf (.single (.error (some i) e)))).ret = true := by
  have hre : ∀ d2 : Option Value, execSingle h d2 (.response i r) st
      = ⟨{ st with deferreds := eraseDeferred st.deferreds i },
         [], .error .typeError⟩ := fun d2 => by
    simp [execSingle, getDeferred, hm]
  have her : ∀ d2 : Option Value, execSingle h d2 (.error (some i) e) st
      = ⟨{ st with deferreds := eraseDeferred st.deferreds i },
         [], .error .typeError⟩ := fun d2 => by
    simp [execSingle, getDeferred, hm]
  refine ⟨by rw [hre], by rw [her], ?_, ?_, ?_, ?_⟩ <;>
    simp [write, exec, parseMessage, execMsg_single, hre, her]

-- ===================================================================
-- Concrete instances for the witnesses

/-- A peer with no pending request and the counter at zero. -/
def stEmpty : PeerState := ⟨[], 0⟩

/-- A handler that answers methods `a` and `c` and fails everything else. -/
def handlerAC : Handler := fun p _ =>
  match p with
  | .request _ method _ =>
    if method = "a" then .success (some (.num 10))
    else if method = "c" then .success (some (.num 30))
    else .failure (.methodNotFound none)
  | _ => .success none

/-- The spec's example batch: a request, a notification, a request. -/
def batchAC : List Payload :=
  [.request 1 "a" none, .notification "b" none, .request 2 "c" none]

/-- A handler that always fails with a data-less method-not-found error. -/
def handlerMNF : Handler := fun _ _ => .failure (.methodNotFound none)

/-- Witness for C1: dispatching `[reqA, notifB, reqC]` yields exactly the
two encoded responses for the requests, in that order. -/
theorem batch_exec_collects_results_witness :
    (∀ p ∈ batchAC, isIndependent p = true) ∧
    (execMsg handlerAC none (.batch (batchAC.map .single)) stEmpty).result
      = .ok (some (.batch [.payload (.response 1 (.num 10)),
                           .payload (.response 2 (.num 30))])) :=
  ⟨by decide,
   ((batch_exec_collects_results handlerAC none batchAC stEmpty
      (by decide)).2).1⟩

/-- Witness for C2: with id 5 pending under token 99, the matching response
resolves it once and deletes the entry. -/
theorem getDeferred_removes_before_settling_witness :
    lookupDeferred (⟨[(5, 99)], 10⟩ : PeerState).deferreds 5 = some 99 ∧
    (execSingle defaultOnMessage none (.response 5 .null)
        (⟨[(5, 99)], 10⟩ : PeerState)).effects = [.resolve 99 .null] ∧
    lookupDeferred (execSingle defaultOnMessage none (.response 5 .null)
        (⟨[(5, 99)], 10⟩ : PeerState)).state.deferreds 5 = none :=
  ⟨by decide,
   (getDeferred_removes_before_settling defaultOnMessage none ⟨[(5, 99)], 10⟩
      5 99 .null ⟨"m", 1, none⟩ (by decide)).1,
   (getDeferred_removes_before_settling defaultOnMessage none ⟨[(5, 99)], 10⟩
      5 99 .null ⟨"m", 1, none⟩ (by decide)).2.1⟩

/-- Witness for C4: on the empty peer, a request takes id 0 and registers
its entry under it. -/
theorem request_fresh_id_registers_and_settles_witness :
    keysBelow stEmpty = true ∧ (5 : Int) ≠ stEmpty.nextRequestId ∧
    lookupDeferred (request stEmpty "m" none 7).state.deferreds
      (request stEmpty "m" none 7).requestId = some 7 :=
  ⟨by decide, by decide,
   (request_fresh_id_registers_and_settles stEmpty "m" none 7
      defaultOnMessage none .null ⟨"m", 1, none⟩ 5 (by decide)
      (by decide)).2.2.1⟩

/-- Witness for C5: a handler failing with a data-less method-not-found on
method `bar` produces an encoded Error whose data is `bar`. -/
theorem mnf_error_data_is_method_witness :
    handlerMNF (.request 7 "bar" none) none
      = .failure (.methodNotFound none) ∧
    (execSingle handlerMNF none (.request 7 "bar" none) stEmpty).result
      = .ok (some (.payload (.error (some 7)
          ⟨"method not found", -32601, some (.str "bar")⟩))) :=
  ⟨rfl,
   (mnf_error_data_is_method handlerMNF none stEmpty stEmpty 7 0 "bar"
      none none rfl).1⟩

/-- Witness for C6: a malformed message rejects `exec` with the id-less
encoded error, and a faulting dispatch through `write` becomes an emitted
error-event effect. -/
theorem parse_failure_rejects_write_never_throws_witness :
    (exec defaultOnMessage stEmpty
        (.wf (.single (.response 0 .null))) none).result
      = .error .typeError ∧
    exec defaultOnMessage stEmpty (.malformed ⟨"parse error", -32700, none⟩)
        none
      = ⟨stEmpty, [], .error (.errorPayload none
          ⟨"parse error", -32700, none⟩)⟩ ∧
    Effect.emitError .typeError
      ∈ (write defaultOnMessage stEmpty
          (.wf (.single (.response 0 .null)))).effects :=
  ⟨rfl,
   (parse_failure_rejects_write_never_throws defaultOnMessage stEmpty
      ⟨"parse error", -32700, none⟩ none (.wf (.single (.response 0 .null)))
      (.wf (.single (.response 0 .null))) .typeError rfl).1,
   (parse_failure_rejects_write_never_throws defaultOnMessage stEmpty
      ⟨"parse error", -32700, none⟩ none (.wf (.single (.response 0 .null)))
      (.wf (.single (.response 0 .null))) .typeError rfl).2.2⟩

/-- Witness for C10: a response for the unknown id 3 rejects `exec`, and
`write` turns that rejection into a single emitted error-event effect. -/
theorem unmatched_id_faults_and_emits_witness :
    lookupDeferred stEmpty.deferreds 3 = none ∧
    (write defaultOnMessage stEmpty
        (.wf (.single (.response 3 .null)))).effects
      = [.emitError .typeError] :=
  ⟨rfl,
   (unmatched_id_faults_and_emits defaultOnMessage none stEmpty 3 .null
      ⟨"m", 1, none⟩ rfl).2.2.1⟩

end JsonRpcPeer
